import Mathlib

/-!
# Verification of the renderHTML core (node composition and serialization)

Shallow embedding of the renderHTML Go package: the generic `element`
(tag, closing-tag flag, attributes, classes, styles, children), the text
entities (`rawStringEntity`, `escapeStringEntity`), the accumulation
methods (`addAttribute`, `addClasses`, `addStyles`, `addContent`), the
serialization algorithm (`element.String`, `HtmlElement.String`) and the
escaping replacer (`htmlEscaper`), together with theorems settling the
spec's claims about them.
-/

namespace RenderHTML

/-- Characters treated as white space by Go's `strings.TrimSpace`
(`unicode.IsSpace`): ASCII white space plus the Unicode space characters. -/
def isGoSpace (c : Char) : Bool :=
  c = ' ' || c = '\t' || c = '\n' || c = (Char.ofNat 11) || c = (Char.ofNat 12) ||
  c = '\r' || c = (Char.ofNat 0x85) || c = (Char.ofNat 0xA0) ||
  c = (Char.ofNat 0x1680) ||
  (0x2000 ≤ c.toNat && c.toNat ≤ 0x200A) ||
  c = (Char.ofNat 0x2028) || c = (Char.ofNat 0x2029) ||
  c = (Char.ofNat 0x202F) || c = (Char.ofNat 0x205F) ||
  c = (Char.ofNat 0x3000)

/-- `strings.TrimSpace` on the character list: drop white space from both ends. -/
def trimSpaceList (l : List Char) : List Char :=
  ((l.dropWhile isGoSpace).reverse.dropWhile isGoSpace).reverse

/-- Go `strings.TrimSpace`. -/
def trimSpace (s : String) : String :=
  ⟨trimSpaceList s.data⟩

/-- Go `strings.ToLower`, modelled on the ASCII range (the claims only
involve ASCII input). -/
def toLowerGo (s : String) : String :=
  ⟨s.data.map (fun c => if 'A' ≤ c && c ≤ 'Z' then Char.ofNat (c.toNat + 32) else c)⟩

/-- Go `strings.Join`. -/
def joinSep (sep : String) : List String → String
  | [] => ""
  | [x] => x
  | x :: y :: rest => x ++ sep ++ joinSep sep (y :: rest)

/-- A dynamically typed Go value as passed to `addAttribute`'s variadic
`value ...any` parameter, together with its `fmt.Sprintf("%v", ·)` form. -/
inductive GoValue where
  | str (s : String)
  | int (n : Int)
  | bool (b : Bool)
deriving DecidableEq, Repr

/-- `fmt.Sprintf("%v", v)`: strings verbatim, integers in decimal,
booleans as `true`/`false`. -/
def GoValue.format : GoValue → String
  | .str s => s
  | .int n => toString n
  | .bool b => if b then "true" else "false"

/-- A non-string, non-Stringer, non-nil Go value as hit by the `default`
branch of `element.addContent`'s type switch. -/
inductive OtherValue where
  | int (n : Int)
  | bool (b : Bool)
deriving DecidableEq, Repr

/-- `fmt.Sprintf("%v", v)` for the `default`-branch values. -/
def OtherValue.format : OtherValue → String
  | .int n => toString n
  | .bool b => if b then "true" else "false"

/-- A renderable node: a generic `element` (flattened fields), a
`rawStringEntity`, or an `escapeStringEntity`. -/
inductive Node where
  | elem (tag : String) (hasClosingTag : Bool)
      (attributes classes styles : List String) (content : List Node)
  | raw (s : String)
  | esc (s : String)

/-- The pattern/replacement pairs of `htmlEscaper = strings.NewReplacer(...)`:
all five patterns are single characters. -/
def replacerPairs : List (Char × List Char) :=
  [('&', "&amp;".data), ('<', "&lt;".data), ('>', "&gt;".data),
   ('"', "&#34;".data), ('\'', "&#39;".data)]

/-- `strings.Replacer.Replace` for single-character patterns: scan left to
right, emitting the replacement of the first matching pattern, or the
character itself when no pattern matches. -/
def replaceList : List Char → List Char
  | [] => []
  | c :: rest =>
    (match replacerPairs.find? (fun p => p.1 = c) with
     | some p => p.2
     | none => [c]) ++ replaceList rest

/-- `htmlEscaper.Replace` on strings. -/
def htmlEscaperReplace (s : String) : String :=
  ⟨replaceList s.data⟩

/-- Written from the spec's words, for comparison with the source's
replacer: substitute each of the five reserved markup characters
(`&`, `<`, `>`, `"`, `'`) with its named character reference and leave
every other character unchanged. -/
def escCharSpec (c : Char) : List Char :=
  if c = '&' then "&amp;".data
  else if c = '<' then "&lt;".data
  else if c = '>' then "&gt;".data
  else if c = '"' then "&#34;".data
  else if c = '\'' then "&#39;".data
  else [c]

/-- `element.getAttributes`: empty when no attributes, else a leading
space plus the attribute strings joined by spaces. -/
def getAttributes (attrs : List String) : String :=
  if attrs = [] then "" else " " ++ joinSep " " attrs

/-- `element.getClasses`: empty when no classes, else a single
`class="..."` attribute with the tokens space-joined. -/
def getClasses (classes : List String) : String :=
  if classes = [] then "" else " class=\"" ++ joinSep " " classes ++ "\""

/-- `element.getStyles`: empty when no styles, else a single
`style="..."` attribute with the declarations space-joined. -/
def getStyles (styles : List String) : String :=
  if styles = [] then "" else " style=\"" ++ joinSep " " styles ++ "\""

mutual
/-- `String()` of a renderable: the `element.String` serialization for
elements, the stored string for a `rawStringEntity`, the escaped string
for an `escapeStringEntity`. -/
def Node.render : Node → String
  | .raw s => s
  | .esc s => htmlEscaperReplace s
  | .elem tag hasClosingTag a c s cont =>
    if tag = "" then renderList cont
    else if hasClosingTag then
      "<" ++ tag ++ getAttributes a ++ getClasses c ++ getStyles s ++ ">" ++
        renderList cont ++ "</" ++ tag ++ ">"
    else
      "<" ++ tag ++ getAttributes a ++ getClasses c ++ getStyles s ++ "/>"

/-- `element.getContent`: concatenate each child's `String()` in order. -/
def renderList : List Node → String
  | [] => ""
  | n :: rest => n.render ++ renderList rest
end

/-- The mutable state of the Go `element` struct. -/
structure ElementData where
  tag : String
  hasClosingTag : Bool
  attributes : List String
  classes : List String
  styles : List String
  content : List Node

/-- View an `element`'s state as a renderable node. -/
def ElementData.toNode (e : ElementData) : Node :=
  .elem e.tag e.hasClosingTag e.attributes e.classes e.styles e.content

/-- `element.String` on the element's state. -/
def ElementData.render (e : ElementData) : String :=
  e.toNode.render

/-- `element.addAttribute(attr, value...)`: trim the name; if empty after
trimming do nothing; else format `name="value"` when a value was supplied
(bare name otherwise) and append to the attributes sequence. -/
def ElementData.addAttribute (e : ElementData) (attr : String)
    (value : Option GoValue) : ElementData :=
  let attr := trimSpace attr
  if attr = "" then e
  else
    let entry := match value with
      | none => attr
      | some v => attr ++ "=\"" ++ v.format ++ "\""
    { e with attributes := e.attributes ++ [entry] }

/-- `element.addClasses(class...)`: trim each token, append the non-empty
ones to the classes sequence in order. -/
def ElementData.addClasses (e : ElementData) (tokens : List String) : ElementData :=
  tokens.foldl (fun acc c =>
    let c := trimSpace c
    if c ≠ "" then { acc with classes := acc.classes ++ [c] } else acc) e

/-- Whether the last character of the list is a semicolon (Go checks the
last byte, `s[len(s)-1] != ';'`; for UTF-8 the last byte is `;` exactly
when the last character is). -/
def endsWithSemi (l : List Char) : Bool :=
  match l.getLast? with
  | some c => c = ';'
  | none => false

/-- The per-declaration normalization step of `element.addStyles`: trim;
when non-empty and not already semicolon-terminated, append `;`. -/
def styleNorm (s : String) : String :=
  let s := trimSpace s
  if s ≠ "" && !endsWithSemi s.data then s ++ ";" else s

/-- `element.addStyles(style...)`: each declaration is trimmed and
semicolon-normalized, then appended to the styles sequence — the append
happens unconditionally, also for declarations that are empty after
trimming. -/
def ElementData.addStyles (e : ElementData) (decls : List String) : ElementData :=
  decls.foldl (fun acc s =>
    { acc with styles := acc.styles ++ [styleNorm s] }) e

/-- A dynamically typed argument to `element.addContent`'s `content ...any`
parameter, tagged by the branch of the Go type switch that it hits:
a `fmt.Stringer`, a plain `string`, `nil`, or any other value. -/
inductive ContentArg where
  | stringer (n : Node)
  | str (s : String)
  | nil
  | other (v : OtherValue)

/-- The child (if any) that one `addContent` argument contributes:
a Stringer as-is, a string wrapped in a raw-text entity, `nil` skipped,
anything else stringified with `%v` and wrapped as raw text. -/
def contentChild : ContentArg → Option Node
  | .stringer n => some n
  | .str s => some (.raw s)
  | .nil => none
  | .other v => some (.raw v.format)

/-- `element.addContent(content...)`: dispatch each argument through the
type switch and append the resulting children in order. -/
def ElementData.addContent (e : ElementData) (items : List ContentArg) : ElementData :=
  items.foldl (fun acc item =>
    match contentChild item with
    | some n => { acc with content := acc.content ++ [n] }
    | none => acc) e

/-- `newElement(tag, hasClosingTag, content...)`. -/
def newElement (tag : String) (hasClosingTag : Bool)
    (content : List ContentArg) : ElementData :=
  (ElementData.mk tag hasClosingTag [] [] [] []).addContent content

/-- `Html(content...)`: the document root element, always tag `html` with
a closing tag. -/
def Html (content : List ContentArg) : ElementData :=
  newElement "html" true content

/-- `HtmlElement.String`: the root wrapper's serialization, prefixing the
fixed `<!DOCTYPE html>` preamble before the `<html ...>...</html>` form. -/
def htmlElementString (e : ElementData) : String :=
  "<!DOCTYPE html>" ++ "<" ++ e.tag ++ getAttributes e.attributes ++
    getClasses e.classes ++ getStyles e.styles ++ ">" ++ renderList e.content ++
    "</" ++ e.tag ++ ">"

/-- The recognized tokens of the `contenteditable` enumerated attribute. -/
def contentEditableTokens : List String := ["true", "false", "plaintext-only"]

/-- `attrGlobal.ContentEditable(value ...string)`: with no argument, the
bare flag; otherwise the argument is lowercased and trimmed, a recognized
token is appended as `contenteditable="token"`, and anything else falls
back to the bare flag. -/
def ContentEditable (e : ElementData) (value : Option String) : ElementData :=
  match value with
  | none => e.addAttribute "contenteditable" none
  | some s =>
    let v := trimSpace (toLowerGo s)
    if !contentEditableTokens.contains v then
      e.addAttribute "contenteditable" none
    else
      e.addAttribute "contenteditable" (some (.str v))

/-- `attrGlobal.Dir(value)`: appends `dir="value"` with the supplied value
passed through unchanged. -/
def Dir (e : ElementData) (value : String) : ElementData :=
  e.addAttribute "dir" (some (.str value))

/-- Modelled from the spec: `UnescapeString` is not part of this
repository's sources (the `EscapeString` documentation and the spec assume
it as the inverse operation). Per the spec, unescaping substitutes the
named character references produced by the escaper back to the five
reserved characters, scanning left to right. -/
def unescapeList : List Char → List Char
  | [] => []
  | c :: rest =>
    if c = '&' ∧ "amp;".data.isPrefixOf rest then '&' :: unescapeList (rest.drop 4)
    else if c = '&' ∧ "lt;".data.isPrefixOf rest then '<' :: unescapeList (rest.drop 3)
    else if c = '&' ∧ "gt;".data.isPrefixOf rest then '>' :: unescapeList (rest.drop 3)
    else if c = '&' ∧ "#34;".data.isPrefixOf rest then '"' :: unescapeList (rest.drop 4)
    else if c = '&' ∧ "#39;".data.isPrefixOf rest then '\'' :: unescapeList (rest.drop 4)
    else c :: unescapeList rest
termination_by l => l.length
decreasing_by all_goals (simp [List.length_drop]; try omega)

/-- Modelled from the spec: `UnescapeString` on strings (see `unescapeList`). -/
def UnescapeString (s : String) : String :=
  ⟨unescapeList s.data⟩

/-- Number of positions at which `pat` occurs as a substring. -/
def countOcc (pat : List Char) : List Char → Nat
  | [] => if pat.isPrefixOf ([] : List Char) then 1 else 0
  | c :: rest =>
    (if pat.isPrefixOf (c :: rest) then 1 else 0) + countOcc pat rest

/-- One call to an accumulation method of the element API. -/
inductive Op where
  | attr (name : String) (value : Option GoValue)
  | classes (tokens : List String)
  | styles (decls : List String)
  | content (items : List ContentArg)

/-- Apply one API call to the element state. -/
def applyOp (e : ElementData) : Op → ElementData
  | .attr n v => e.addAttribute n v
  | .classes ts => e.addClasses ts
  | .styles ds => e.addStyles ds
  | .content is => e.addContent is

/-- Apply a sequence of API calls in order. -/
def applyOps (e : ElementData) (ops : List Op) : ElementData :=
  ops.foldl applyOp e

/-- The attribute entry (if any) contributed by one `addAttribute` call:
dropped when the trimmed name is empty, else the bare name or the
`name="value"` form. -/
def attrEntry (name : String) (value : Option GoValue) : List String :=
  let n := trimSpace name
  if n = "" then []
  else
    match value with
    | none => [n]
    | some v => [n ++ "=\"" ++ v.format ++ "\""]

/-- Attribute strings contributed by a call sequence, in call order. -/
def opsAttrs : List Op → List String
  | [] => []
  | .attr n v :: rest => attrEntry n v ++ opsAttrs rest
  | _ :: rest => opsAttrs rest

/-- Class tokens contributed by a call sequence: each token trimmed, the
empty ones dropped, in call order. -/
def opsClasses : List Op → List String
  | [] => []
  | .classes ts :: rest => (ts.map trimSpace).filter (fun c => c ≠ "") ++ opsClasses rest
  | _ :: rest => opsClasses rest

/-- Style declarations contributed by a call sequence: each declaration
trimmed and semicolon-normalized, in call order. -/
def opsStyles : List Op → List String
  | [] => []
  | .styles ds :: rest => ds.map styleNorm ++ opsStyles rest
  | _ :: rest => opsStyles rest

/-- Children contributed by a call sequence, in call order. -/
def opsContent : List Op → List Node
  | [] => []
  | .content is :: rest => is.filterMap contentChild ++ opsContent rest
  | _ :: rest => opsContent rest

mutual
/-- `element.String` with the element state threaded explicitly: the Go
method reads the receiver and its children and writes to a local string
builder only, so the embedding returns the (unchanged) state next to the
produced string. -/
def Node.renderSt : Node → Node × String
  | .raw s => (.raw s, s)
  | .esc s => (.esc s, htmlEscaperReplace s)
  | .elem tag hasClosingTag a c s cont =>
    let r := renderListSt cont
    if tag = "" then (.elem tag hasClosingTag a c s r.1, r.2)
    else if hasClosingTag then
      (.elem tag hasClosingTag a c s r.1,
       "<" ++ tag ++ getAttributes a ++ getClasses c ++ getStyles s ++ ">" ++
         r.2 ++ "</" ++ tag ++ ">")
    else
      (.elem tag hasClosingTag a c s cont,
       "<" ++ tag ++ getAttributes a ++ getClasses c ++ getStyles s ++ "/>")

/-- `element.getContent` with state threading over the children. -/
def renderListSt : List Node → List Node × String
  | [] => ([], "")
  | n :: rest =>
    let r := n.renderSt
    let rs := renderListSt rest
    (r.1 :: rs.1, r.2 ++ rs.2)
end

/-! ## Helper lemmas -/

lemma unescape_cons (c : Char) (hc : c ≠ '&') (l : List Char) :
    unescapeList (c :: l) = c :: unescapeList l := by
  simp only [unescapeList, hc, false_and, if_false]

lemma replaceList_cons (c : Char) (l : List Char) :
    replaceList (c :: l) =
      (match replacerPairs.find? (fun p => p.1 = c) with
       | some p => p.2
       | none => [c]) ++ replaceList l := by
  rw [replaceList]

/-- The per-character action of the source's replacer agrees with the
spec's description of the substitution. -/
lemma findRepl_eq (c : Char) :
    (match replacerPairs.find? (fun p => p.1 = c) with
     | some p => p.2
     | none => [c]) = escCharSpec c := by
  by_cases h1 : c = '&'
  · subst h1; simp [replacerPairs, List.find?, escCharSpec]
  · by_cases h2 : c = '<'
    · subst h2; simp [replacerPairs, List.find?, escCharSpec]
    · by_cases h3 : c = '>'
      · subst h3; simp [replacerPairs, List.find?, escCharSpec]
      · by_cases h4 : c = '"'
        · subst h4; simp [replacerPairs, List.find?, escCharSpec]
        · by_cases h5 : c = '\''
          · subst h5; simp [replacerPairs, List.find?, escCharSpec]
          · simp [replacerPairs, List.find?, escCharSpec,
              Ne.symm h1, Ne.symm h2, Ne.symm h3, Ne.symm h4, Ne.symm h5,
              h1, h2, h3, h4, h5]

/-- The replacer is the character-wise substitution map. -/
lemma replaceList_eq_spec (l : List Char) :
    replaceList l = (l.map escCharSpec).flatten := by
  induction l with
  | nil => simp [replaceList]
  | cons c l ih => rw [replaceList_cons, findRepl_eq, ih]; simp

/-- Unescaping undoes the escaping of a single character followed by
already-escaped text. -/
lemma unescape_replace (l : List Char) : unescapeList (replaceList l) = l := by
  induction l with
  | nil => simp [replaceList, unescapeList]
  | cons c l ih =>
    rw [replaceList_cons]
    by_cases h1 : c = '&'
    · subst h1
      have h : unescapeList ('&' :: 'a' :: 'm' :: 'p' :: ';' :: replaceList l) =
          '&' :: unescapeList (replaceList l) := by
        simp [unescapeList, List.isPrefixOf]
      simp [replacerPairs, List.find?, h, ih]
    · by_cases h2 : c = '<'
      · subst h2
        have h : unescapeList ('&' :: 'l' :: 't' :: ';' :: replaceList l) =
            '<' :: unescapeList (replaceList l) := by
          simp [unescapeList, List.isPrefixOf]
        simp [replacerPairs, List.find?, h, ih]
      · by_cases h3 : c = '>'
        · subst h3
          have h : unescapeList ('&' :: 'g' :: 't' :: ';' :: replaceList l) =
              '>' :: unescapeList (replaceList l) := by
            simp [unescapeList, List.isPrefixOf]
          simp [replacerPairs, List.find?, h, ih]
        · by_cases h4 : c = '"'
          · subst h4
            have h : unescapeList ('&' :: '#' :: '3' :: '4' :: ';' :: replaceList l) =
                '"' :: unescapeList (replaceList l) := by
              simp [unescapeList, List.isPrefixOf]
            simp [replacerPairs, List.find?, h, ih]
          · by_cases h5 : c = '\''
            · subst h5
              have h : unescapeList ('&' :: '#' :: '3' :: '9' :: ';' :: replaceList l) =
                  '\'' :: unescapeList (replaceList l) := by
                simp [unescapeList, List.isPrefixOf]
              simp [replacerPairs, List.find?, h, ih]
            · have hf : replacerPairs.find? (fun p => p.1 = c) = none := by
                simp [replacerPairs, List.find?,
                  Ne.symm h1, Ne.symm h2, Ne.symm h3, Ne.symm h4, Ne.symm h5]
              simp [hf, unescape_cons c h1, ih]

lemma applyOps_cons (e : ElementData) (op : Op) (ops : List Op) :
    applyOps e (op :: ops) = applyOps (applyOp e op) ops := rfl

/-- `addAttribute` appends exactly the entry described by `attrEntry`. -/
lemma addAttribute_spec (e : ElementData) (name : String) (v : Option GoValue) :
    e.addAttribute name v = { e with attributes := e.attributes ++ attrEntry name v } := by
  by_cases h : trimSpace name = ""
  · simp [ElementData.addAttribute, attrEntry, h]
  · cases v with
    | none => simp [ElementData.addAttribute, attrEntry, h]
    | some gv => simp [ElementData.addAttribute, attrEntry, h]

/-- `addClasses` appends the trimmed non-empty tokens, in order. -/
lemma addClasses_spec (e : ElementData) (ts : List String) :
    e.addClasses ts =
      { e with classes := e.classes ++ (ts.map trimSpace).filter (fun c => c ≠ "") } := by
  induction ts generalizing e with
  | nil => simp [ElementData.addClasses]
  | cons t ts ih =>
    by_cases h : trimSpace t = ""
    · have h1 : e.addClasses (t :: ts) = e.addClasses ts := by
        simp [ElementData.addClasses, h]
      rw [h1, ih]; simp [h]
    · have h1 : e.addClasses (t :: ts) =
          ElementData.addClasses { e with classes := e.classes ++ [trimSpace t] } ts := by
        simp [ElementData.addClasses, h]
      rw [h1, ih]; simp [h]

/-- `addStyles` appends the normalization of every declaration, in order. -/
lemma addStyles_spec (e : ElementData) (ds : List String) :
    e.addStyles ds = { e with styles := e.styles ++ ds.map styleNorm } := by
  induction ds generalizing e with
  | nil => simp [ElementData.addStyles]
  | cons d ds ih =>
    have h1 : e.addStyles (d :: ds) =
        ElementData.addStyles { e with styles := e.styles ++ [styleNorm d] } ds := rfl
    rw [h1, ih]; simp

/-- `addContent` appends the children produced by the type-switch
dispatch, in order. -/
lemma addContent_spec (e : ElementData) (items : List ContentArg) :
    e.addContent items = { e with content := e.content ++ items.filterMap contentChild } := by
  induction items generalizing e with
  | nil => simp [ElementData.addContent]
  | cons i items ih =>
    cases hi : contentChild i with
    | none =>
      have h1 : e.addContent (i :: items) = e.addContent items := by
        simp [ElementData.addContent, hi]
      rw [h1, ih]; simp [List.filterMap_cons, hi]
    | some n =>
      have h1 : e.addContent (i :: items) =
          ElementData.addContent { e with content := e.content ++ [n] } items := by
        simp [ElementData.addContent, hi]
      rw [h1, ih]; simp [List.filterMap_cons, hi]

/-- A sequence of API calls contributes to each of the four sequences
exactly its per-call entries, in call order. -/
lemma applyOps_spec (e : ElementData) (ops : List Op) :
    applyOps e ops = { e with
      attributes := e.attributes ++ opsAttrs ops,
      classes := e.classes ++ opsClasses ops,
      styles := e.styles ++ opsStyles ops,
      content := e.content ++ opsContent ops } := by
  induction ops generalizing e with
  | nil => simp [applyOps, opsAttrs, opsClasses, opsStyles, opsContent]
  | cons op ops ih =>
    rw [applyOps_cons, ih]
    cases op with
    | attr n v =>
      simp [applyOp, addAttribute_spec, opsAttrs, opsClasses, opsStyles, opsContent]
    | classes ts =>
      simp [applyOp, addClasses_spec, opsAttrs, opsClasses, opsStyles, opsContent]
    | styles ds =>
      simp [applyOp, addStyles_spec, opsAttrs, opsClasses, opsStyles, opsContent]
    | content is =>
      simp [applyOp, addContent_spec, opsAttrs, opsClasses, opsStyles, opsContent]

mutual
/-- The state-threaded serialization returns the element unchanged and
computes the pure serialization. -/
theorem renderSt_eq : ∀ n : Node, n.renderSt = (n, n.render)
  | .raw s => rfl
  | .esc s => rfl
  | .elem tag hct a c s cont => by
    have h := renderListSt_eq cont
    simp [Node.renderSt, Node.render, h]
    cases hct <;> by_cases ht : tag = "" <;> simp [ht]

/-- The state-threaded child serialization returns the children unchanged
and computes the concatenation of their pure serializations. -/
theorem renderListSt_eq : ∀ l : List Node, renderListSt l = (l, renderList l)
  | [] => rfl
  | n :: rest => by
    have h1 := renderSt_eq n
    have h2 := renderListSt_eq rest
    simp [renderListSt, renderList, h1, h2]
end

/-! ## Claims -/

/-- C1 counterexample: a whitespace-only style declaration is NOT dropped
by `addStyles` — it is appended to the styles sequence as the empty
string, and it changes the rendered output (an empty `style=""` attribute
appears). -/
theorem whitespace_style_appended_counterexample :
    ((ElementData.mk "div" true [] [] [] []).addStyles [" "]).styles = [""] ∧
    ((ElementData.mk "div" true [] [] [] []).addStyles [" "]).render ≠
      (ElementData.mk "div" true [] [] [] []).render :=
  ⟨by decide, by decide⟩

/-- C1 (amended): an attribute name that is empty after trimming makes
`addAttribute` a no-op, and `addClasses` appends exactly the trimmed
non-empty class tokens; but `addStyles` appends every declaration after
trimming and semicolon-normalization, including the ones that are empty
after trimming (an empty declaration is appended as the empty string). -/
theorem empty_inputs_handling :
    (∀ (e : ElementData) (name : String) (v : Option GoValue),
      trimSpace name = "" → e.addAttribute name v = e) ∧
    (∀ (e : ElementData) (ts : List String),
      (e.addClasses ts).classes = e.classes ++ (ts.map trimSpace).filter (fun c => c ≠ "")) ∧
    (∀ (e : ElementData) (ds : List String),
      (e.addStyles ds).styles = e.styles ++ ds.map styleNorm) ∧
    (∀ s : String, trimSpace s = "" → styleNorm s = "") := by
  refine ⟨?_, ?_, ?_, ?_⟩
  · intro e name v h; simp [ElementData.addAttribute, h]
  · intro e ts; rw [addClasses_spec]
  · intro e ds; rw [addStyles_spec]
  · intro s h; simp [styleNorm, h]

/-- C1 witness: `empty_inputs_handling` at concrete inputs — a
whitespace-only attribute name is dropped, the tokens `["", " ", "x"]`
contribute only `x`, and the whitespace-only style declaration is
appended as `""`. -/
theorem empty_inputs_handling_witness :
    (ElementData.mk "div" true [] [] [] []).addAttribute "  " (some (.str "v")) =
      ElementData.mk "div" true [] [] [] [] ∧
    ((ElementData.mk "div" true [] [] [] []).addClasses ["", " ", "x"]).classes = ["x"] ∧
    ((ElementData.mk "div" true [] [] [] []).addStyles [" "]).styles = [""] ∧
    styleNorm " " = "" := by
  refine ⟨empty_inputs_handling.1 _ "  " _ (by decide), ?_, ?_,
    empty_inputs_handling.2.2.2 " " (by decide)⟩
  · rw [empty_inputs_handling.2.1 (ElementData.mk "div" true [] [] [] []) ["", " ", "x"]]; rfl
  · rw [empty_inputs_handling.2.2.1 (ElementData.mk "div" true [] [] [] []) [" "]]; rfl

/-- C2 counterexample: `Dir` does not normalize its value — supplying
`" LTR "` (which the claim would trim and lowercase to the recognized
token `ltr`) appends `dir=" LTR "` verbatim, not `dir="ltr"` and not the
bare flag. -/
theorem dir_not_normalized_counterexample :
    (Dir (ElementData.mk "div" true [] [] [] []) " LTR ").attributes = ["dir=\" LTR \""] ∧
    ("dir=\" LTR \"" : String) ≠ "dir=\"ltr\"" :=
  ⟨by decide, by decide⟩

/-- C2 (amended): the trim-and-lowercase normalization with bare-flag
fallback is not uniform across the enumerated-attribute setters: the
`contenteditable` setter normalizes and falls back to the bare flag for
unrecognized tokens, while the `dir` setter appends `dir="value"` with
the supplied value passed through unchanged. -/
theorem enumerated_attr_normalization :
    (∀ (e : ElementData) (s : String),
      (ContentEditable e (some s)).attributes = e.attributes ++
        [if contentEditableTokens.contains (trimSpace (toLowerGo s)) then
           "contenteditable=\"" ++ trimSpace (toLowerGo s) ++ "\""
         else "contenteditable"]) ∧
    (∀ e : ElementData, (ContentEditable e none).attributes = e.attributes ++ ["contenteditable"]) ∧
    (∀ (e : ElementData) (s : String),
      (Dir e s).attributes = e.attributes ++ ["dir=\"" ++ s ++ "\""]) := by
  have ht : trimSpace "contenteditable" = "contenteditable" := by decide
  have hd : trimSpace "dir" = "dir" := by decide
  refine ⟨?_, ?_, ?_⟩
  · intro e s
    simp [ContentEditable, addAttribute_spec, attrEntry, ht, GoValue.format]
    split <;> simp
  · intro e
    simp [ContentEditable, addAttribute_spec, attrEntry, ht]
  · intro e s
    simp [Dir, addAttribute_spec, attrEntry, hd, GoValue.format]

/-- C3: unescaping the rendered output of the escaped-text entity built
from `s` recovers `s` for every string, and the converse round-trip fails
for some string (`"<"`: unescaping leaves it unchanged and escaping it
yields `"&lt;"`). -/
theorem escape_unescape_roundtrip :
    (∀ s : String, UnescapeString ((Node.esc s).render) = s) ∧
    (∃ t : String, (Node.esc (UnescapeString t)).render ≠ t) := by
  constructor
  · intro s
    show (⟨unescapeList (replaceList s.data)⟩ : String) = s
    rw [unescape_replace]
  · refine ⟨"<", ?_⟩
    have h1 : UnescapeString "<" = "<" := by
      show (⟨unescapeList ['<']⟩ : String) = "<"
      simp [unescapeList]
    show htmlEscaperReplace (UnescapeString "<") ≠ "<"
    rw [h1]
    decide

/-- C4: for every non-empty tag and every sequence of accumulation calls
applied to a fresh element, the rendered opening tag lists, after the tag
name: every attribute entry in insertion order (duplicate keys kept),
then — if any classes were added — exactly one `class` attribute with all
tokens space-joined in insertion order, then — if any styles were
added — exactly one `style` attribute with all semicolon-terminated
declarations space-joined in insertion order, in that fixed order. -/
theorem opening_tag_attribute_order (tag : String) (hct : Bool) (h : tag ≠ "")
    (ops : List Op) :
    (applyOps (ElementData.mk tag hct [] [] [] []) ops).render =
      "<" ++ tag ++
      (if opsAttrs ops = [] then "" else " " ++ joinSep " " (opsAttrs ops)) ++
      (if opsClasses ops = [] then "" else " class=\"" ++ joinSep " " (opsClasses ops) ++ "\"") ++
      (if opsStyles ops = [] then "" else " style=\"" ++ joinSep " " (opsStyles ops) ++ "\"") ++
      (if hct then ">" ++ renderList (opsContent ops) ++ "</" ++ tag ++ ">" else "/>") := by
  rw [applyOps_spec]
  simp [ElementData.render, ElementData.toNode, Node.render, h, getAttributes, getClasses,
    getStyles, String.append_assoc]
  cases hct <;> simp [String.append_assoc]

/-- C4 witness: duplicate `id` attributes are both kept in order, two
class-adder calls merge into a single `class="a b c"`, and two
style-adder calls merge into a single `style="color:red; margin:0;"`. -/
theorem opening_tag_attribute_order_witness :
    (applyOps (ElementData.mk "div" true [] [] [] [])
      [.attr "id" (some (.str "a")), .attr "id" (some (.str "b")),
       .classes ["a", "b"], .classes ["c"],
       .styles ["color:red"], .styles ["margin:0;"]]).render =
      "<div id=\"a\" id=\"b\" class=\"a b c\" style=\"color:red; margin:0;\"></div>" := by
  rw [opening_tag_attribute_order "div" true (by decide) _]
  decide

/-- C5: a void element with a non-empty tag renders as `<tag` + attribute
suffix + class suffix + style suffix + `/>` — the children play no part
in the output — and content passed at construction still leaves the
rendering at exactly `<tag/>`. -/
theorem void_element_render (tag : String) (h : tag ≠ "") (a c s : List String)
    (cont : List Node) (args : List ContentArg) :
    (Node.elem tag false a c s cont).render =
      "<" ++ tag ++ getAttributes a ++ getClasses c ++ getStyles s ++ "/>" ∧
    (newElement tag false args).render = "<" ++ tag ++ "/>" := by
  constructor
  · simp [Node.render, h]
  · simp [newElement, addContent_spec, ElementData.render, ElementData.toNode, Node.render, h,
      getAttributes, getClasses, getStyles]

/-- C5 witness: a void `img` node with one attribute and a child renders
as exactly `<img attr="v"/>`, and a fresh void `img` constructed with
content renders as `<img/>`. -/
theorem void_element_render_witness :
    (Node.elem "img" false ["attr=\"v\""] [] [] [Node.raw "inner"]).render = "<img attr=\"v\"/>" ∧
    (newElement "img" false [.str "ignored"]).render = "<img/>" := by
  have h := void_element_render "img" (by decide) ["attr=\"v\""] [] [] [Node.raw "inner"]
    [.str "ignored"]
  exact ⟨h.1.trans (by decide), h.2.trans (by decide)⟩

/-- C6: the content accumulator appends, in the order given, a Stringer
as-is, a plain string wrapped as a raw-text entity (whose rendering is
the string verbatim, unescaped), skips `nil`, and stringifies any other
value as raw text; the list `[nil, true, 123, "x"]` renders `true123x`. -/
theorem content_dispatch (e : ElementData) (items : List ContentArg) :
    (e.addContent items).content = e.content ++ items.filterMap contentChild ∧
    (∀ s : String, (Node.raw s).render = s) ∧
    ((ElementData.mk "" false [] [] [] []).addContent
      [.nil, .other (.bool true), .other (.int 123), .str "x"]).render = "true123x" := by
  refine ⟨?_, fun s => rfl, by decide⟩
  rw [addContent_spec]

/-- C7: rendering the escaped-text entity substitutes, character by
character, exactly the five reserved markup characters with their named
references and leaves every other character unchanged (`escCharSpec` is
the spec's substitution map). -/
theorem escaped_entity_substitution (s : String) :
    (Node.esc s).render = ⟨(s.data.map escCharSpec).flatten⟩ := by
  show (⟨replaceList s.data⟩ : String) = _
  rw [replaceList_eq_spec]

/-- C8: however the document-root element is built (any construction
content, any accumulation calls), its render output is the fixed preamble
literal followed immediately by the `<html ...>` opening form; the root
keeps tag `html` and its closing-tag flag, renders a `</html>` closing
tag, and its own markup contains the preamble exactly once. -/
theorem root_preamble_once (args : List ContentArg) (ops : List Op) :
    htmlElementString (applyOps (Html args) ops) =
      "<!DOCTYPE html>" ++ (applyOps (Html args) ops).render ∧
    (applyOps (Html args) ops).tag = "html" ∧
    (applyOps (Html args) ops).hasClosingTag = true ∧
    (applyOps (Html args) ops).render =
      "<html" ++ getAttributes (opsAttrs ops) ++ getClasses (opsClasses ops) ++
        getStyles (opsStyles ops) ++ ">" ++
        renderList (args.filterMap contentChild ++ opsContent ops) ++ "</html>" ∧
    countOcc "<!DOCTYPE html>".data (htmlElementString (Html [])).data = 1 := by
  have hH : Html args = ElementData.mk "html" true [] [] [] (args.filterMap contentChild) := by
    simp [Html, newElement, addContent_spec]
  have he : applyOps (Html args) ops =
      ElementData.mk "html" true (opsAttrs ops) (opsClasses ops) (opsStyles ops)
        (args.filterMap contentChild ++ opsContent ops) := by
    rw [hH, applyOps_spec]; simp
  refine ⟨?_, ?_, ?_, ?_, by decide⟩
  · rw [he]
    simp only [htmlElementString, ElementData.render, ElementData.toNode, Node.render]
    simp [String.append_assoc]
    conv_rhs => rw [← String.append_assoc]
    simp
  · rw [he]
  · rw [he]
  · rw [he]
    simp [ElementData.render, ElementData.toNode, Node.render, String.append_assoc]

/-- C9: serialization mutates nothing — the state-threaded rendering
returns the node (and recursively all its descendants) unchanged together
with the pure render output, and a second render call on the returned
state produces the identical string. -/
theorem render_no_mutation (n : Node) :
    Node.renderSt n = (n, n.render) ∧
    (Node.renderSt (Node.renderSt n).1).2 = (Node.renderSt n).2 := by
  have h := renderSt_eq n
  exact ⟨h, by simp [h]⟩

/-- C10: for a non-empty trimmed attribute name, `addAttribute` appends
exactly `name="value"` with the value's `%v` form inserted verbatim — a
string value is inserted unchanged, with no character escaping — so a
double quote or angle bracket in the value reaches the rendered output
as-is; class tokens and style declarations are passed through to their
sequences equally unescaped. -/
theorem attribute_value_passthrough :
    (∀ (e : ElementData) (name : String) (v : GoValue),
      (e.addAttribute name (some v)).attributes = e.attributes ++
        (if trimSpace name = "" then []
         else [trimSpace name ++ "=\"" ++ v.format ++ "\""])) ∧
    (∀ s : String, (GoValue.str s).format = s) ∧
    ((ElementData.mk "div" true [] [] [] []).addAttribute "x"
        (some (.str "a\"b<c>"))).render = "<div x=\"a\"b<c>\"></div>" ∧
    (∀ (e : ElementData) (t : String),
      (e.addClasses [t]).classes = e.classes ++
        (if trimSpace t = "" then [] else [trimSpace t])) ∧
    (∀ (e : ElementData) (d : String),
      (e.addStyles [d]).styles = e.styles ++ [styleNorm d]) := by
  refine ⟨?_, fun s => rfl, by decide, ?_, ?_⟩
  · intro e name v
    rw [addAttribute_spec]
    by_cases h : trimSpace name = "" <;> simp [attrEntry, h]
  · intro e t
    rw [addClasses_spec]
    by_cases h : trimSpace t = "" <;> simp [h]
  · intro e d
    rw [addStyles_spec]; rfl

end RenderHTML
